import Mathlib

/-!
Verification of the tree mutation algebra, the cascading delete/restore
engine and the client save/reconciliation path of the note-store
repository (chenryace/timo).

The TypeScript sources are shallowly embedded as executable Lean
definitions.  JavaScript objects (`Record<string, T>`) are modelled as
insertion-ordered association lists `List (String × T)`; `undefined` and
missing record fields are modelled with `Option`; a thrown exception is
modelled with an explicit error constructor; potential non-termination of
the recursive `flattenTree` is modelled with a fuel parameter (an
`outOfFuel` result means the recursion depth exceeded the fuel, which for
a cyclic input happens for every fuel).
-/

namespace Timo

/-- Association-list lookup with JavaScript object semantics
(`obj[key]`): the first binding of the key wins, a missing key is
`none` (`undefined`). -/
def jsGet {α : Type} : List (String × α) → String → Option α
  | [], _ => none
  | (k, v) :: rest, key => if k = key then some v else jsGet rest key

/-- JavaScript `obj[key] = value` on an object that already has `key`:
replace the first binding of `key`, keeping insertion order. -/
def jsSetExisting {α : Type} : List (String × α) → String → α → List (String × α)
  | [], _, _ => []
  | (k, v) :: rest, key, value =>
    if k = key then (k, value) :: rest else (k, v) :: jsSetExisting rest key value

/-- JavaScript `obj[key] = value` in general: replace the binding if the
key exists, otherwise append it (insertion order). -/
def jsSet {α : Type} (l : List (String × α)) (key : String) (value : α) :
    List (String × α) :=
  if (jsGet l key).isSome then jsSetExisting l key value else l ++ [(key, value)]

/-- Whether a key of `b` survives the spread merge `\x7b...a, ...b\x7d`
as a trailing entry (it does when `a` does not have it). -/
def jsMergeKeep {α : Type} (a : List (String × α)) (k : String) : Bool :=
  (jsGet a k).isNone

/-- JavaScript object spread merge `\x7b...a, ...b\x7d`: keys of `a` in
order, each taking `b`'s value when `b` also has the key, followed by the
keys of `b` that `a` does not have. -/
def jsMerge {α : Type} (a b : List (String × α)) : List (String × α) :=
  a.map (fun kv => (kv.1, ((jsGet b kv.1).getD kv.2))) ++
    b.filter (fun kv => jsMergeKeep a kv.1)

/-! ## Data model of `src/libs/shared/tree.ts` (tree mutation algebra)

`TreeItemModel` keeps the fields the algebra operations read or write:
`id`, `children` and the opaque note-summary payload `data`
(`NoteModel`, not inspected by any operation verified here and hence
modelled as an opaque optional string). -/

structure TreeItemModel where
  id : String
  children : List String
  data : Option String := none
  deriving Repr, DecidableEq

abbrev TreeItems := List (String × TreeItemModel)

structure TreeModel where
  rootId : String
  items : TreeItems
  deriving Repr, DecidableEq

deriving instance DecidableEq for Except

def ROOT_ID : String := "root"

def DEFAULT_TREE : TreeModel :=
  { rootId := ROOT_ID, items := [(ROOT_ID, { id := ROOT_ID, children := [] })] }

/-! ## `flattenTree` (tree.ts lines 128-149)

```ts
const flattenTree = (tree, rootId = tree.rootId) => {
    if (!tree.items[rootId]) { return []; }
    return reduce(tree.items[rootId].children, (accum, itemId) => {
        const item = tree.items[itemId];
        const children = flattenTree({ rootId: item.id, items: tree.items });
        return [...accum, item, ...children];
    }, []);
};
```

`item.id` on `item === undefined` throws a `TypeError`; this is the
`typeError` result.  The recursion has no structural termination measure
in the source (a cyclic `children` chain recurses forever), so the
embedding burns one unit of fuel per recursive `flattenTree` call;
`outOfFuel` models a recursion that exceeded the given depth. -/

inductive FlatRes where
  | ok (l : List TreeItemModel)
  | typeError
  | outOfFuel
  deriving Repr, DecidableEq

/-- One level of the `reduce` over `tree.items[rootId].children`; `recf`
is the recursive `flattenTree` call at the next depth. -/
def flattenChildrenF (recf : TreeItems → String → FlatRes) (items : TreeItems) :
    List String → FlatRes
  | [] => .ok []
  | c :: rest =>
    match jsGet items c with
    | none => .typeError
    | some item =>
      match recf items item.id with
      | .ok sub =>
        match flattenChildrenF recf items rest with
        | .ok r => .ok (item :: (sub ++ r))
        | e => e
      | e => e

/-- `flattenTree`, fuelled.  The missing-root guard is checked before the
fuel so that a missing `rootId` returns `[]` at every fuel, exactly as the
source returns `[]` without recursing. -/
def flattenTreeF (fuel : Nat) : TreeItems → String → FlatRes :=
  Nat.rec
    (motive := fun _ => TreeItems → String → FlatRes)
    (fun items rootId =>
      match jsGet items rootId with
      | none => .ok []
      | some _ => .outOfFuel)
    (fun _ ih items rootId =>
      match jsGet items rootId with
      | none => .ok []
      | some root => flattenChildrenF ih items root.children)
    fuel

theorem flattenTreeF_zero (items : TreeItems) (rootId : String) :
    flattenTreeF 0 items rootId =
      (match jsGet items rootId with
       | none => .ok []
       | some _ => .outOfFuel) := rfl

theorem flattenTreeF_succ (fuel : Nat) (items : TreeItems) (rootId : String) :
    flattenTreeF (fuel + 1) items rootId =
      (match jsGet items rootId with
       | none => .ok []
       | some root => flattenChildrenF (flattenTreeF fuel) items root.children) := rfl

/-! ### Facts about `flattenTreeF` -/

/-- A children list that mentions an id with no entry in `items` can
never flatten to a result list: the source throws on `item.id` before the
dangling id could be skipped. -/
theorem flattenChildrenF_not_ok_of_dangling
    (recf : TreeItems → String → FlatRes) (items : TreeItems)
    (cs : List String) (c : String)
    (hc : c ∈ cs) (hmiss : jsGet items c = none) :
    ∀ l, flattenChildrenF recf items cs ≠ FlatRes.ok l := by
  induction cs with
  | nil => cases hc
  | cons h rest ih =>
    intro l
    rcases List.mem_cons.mp hc with rfl | hmem
    · simp [flattenChildrenF, hmiss]
    · unfold flattenChildrenF
      cases hh : jsGet items h with
      | none => simp
      | some item =>
        cases hrec : recf items item.id with
        | ok sub =>
          cases hrest : flattenChildrenF recf items rest with
          | ok r => exact absurd hrest (ih hmem r)
          | typeError => simp [hrec, hrest]
          | outOfFuel => simp [hrec, hrest]
        | typeError => simp [hrec]
        | outOfFuel => simp [hrec]

/-- Every item of a successfully flattened children list is an entry of
`items`. -/
theorem flattenChildrenF_mem_of_ok
    (recf : TreeItems → String → FlatRes) (items : TreeItems)
    (hrec : ∀ (r : String) (l' : List TreeItemModel), recf items r = FlatRes.ok l' →
      ∀ it ∈ l', ∃ k, jsGet items k = some it)
    (cs : List String) (l : List TreeItemModel)
    (h : flattenChildrenF recf items cs = FlatRes.ok l) :
    ∀ it ∈ l, ∃ k, jsGet items k = some it := by
  induction cs generalizing l with
  | nil =>
    simp only [flattenChildrenF] at h
    cases h; simp
  | cons c rest ih =>
    unfold flattenChildrenF at h
    cases hh : jsGet items c with
    | none => simp only [hh] at h; exact FlatRes.noConfusion h
    | some item =>
      simp only [hh] at h
      cases hsub : recf items item.id with
      | ok sub =>
        simp only [hsub] at h
        cases hrest : flattenChildrenF recf items rest with
        | ok r =>
          simp only [hrest] at h
          cases h
          intro it hit
          rcases List.mem_cons.mp hit with rfl | hit'
          · exact ⟨c, hh⟩
          · rcases List.mem_append.mp hit' with hs | hr
            · exact hrec item.id sub hsub it hs
            · exact ih r hrest it hr
        | typeError => simp only [hrest] at h; exact FlatRes.noConfusion h
        | outOfFuel => simp only [hrest] at h; exact FlatRes.noConfusion h
      | typeError => simp only [hsub] at h; exact FlatRes.noConfusion h
      | outOfFuel => simp only [hsub] at h; exact FlatRes.noConfusion h

/-- Every item of a successfully flattened tree is an entry of `items`. -/
theorem flattenTreeF_mem_of_ok (fuel : Nat) :
    ∀ (items : TreeItems) (rootId : String) (l : List TreeItemModel),
      flattenTreeF fuel items rootId = FlatRes.ok l →
      ∀ it ∈ l, ∃ k, jsGet items k = some it := by
  induction fuel with
  | zero =>
    intro items rootId l h
    rw [flattenTreeF_zero] at h
    cases hh : jsGet items rootId with
    | none => rw [hh] at h; cases h; simp
    | some root => rw [hh] at h; cases h
  | succ fuel ih =>
    intro items rootId l h
    rw [flattenTreeF_succ] at h
    cases hh : jsGet items rootId with
    | none => rw [hh] at h; cases h; simp
    | some root =>
      rw [hh] at h
      exact flattenChildrenF_mem_of_ok (flattenTreeF fuel) items
        (fun r l' h' => ih items r l' h') root.children l h

/-- A missing starting rootId yields `[]` at every fuel. -/
theorem flattenTreeF_missing_root (fuel : Nat) (items : TreeItems) (rootId : String)
    (h : jsGet items rootId = none) :
    flattenTreeF fuel items rootId = FlatRes.ok [] := by
  cases fuel with
  | zero => rw [flattenTreeF_zero, h]
  | succ fuel => rw [flattenTreeF_succ, h]

/-- A dangling id inside a children list prevents any result list at any
fuel (the call throws or, when an earlier sibling cycles, exhausts fuel;
it never returns). -/
theorem flattenTreeF_not_ok_of_dangling_child (fuel : Nat) (items : TreeItems)
    (rootId : String) (root : TreeItemModel) (c : String)
    (hroot : jsGet items rootId = some root) (hc : c ∈ root.children)
    (hmiss : jsGet items c = none) :
    ∀ l, flattenTreeF fuel items rootId ≠ FlatRes.ok l := by
  intro l
  cases fuel with
  | zero => rw [flattenTreeF_zero, hroot]; simp
  | succ fuel =>
    rw [flattenTreeF_succ, hroot]
    exact flattenChildrenF_not_ok_of_dangling (flattenTreeF fuel) items
      root.children c hc hmiss l

/-! ### Claim C1 -/

/-- Tree whose root references the dangling id `"a"` (no `"a"` entry in
`items`). -/
def flatDanglingItems : TreeItems := [("root", { id := "root", children := ["a"] })]

/-- Two parents sharing the child `"c"`. -/
def flatSharedItems : TreeItems :=
  [("root", { id := "root", children := ["a", "b"] }),
   ("a", { id := "a", children := ["c"] }),
   ("b", { id := "b", children := ["c"] }),
   ("c", { id := "c", children := [] })]

/-- An item that lists itself as its own child. -/
def flatCycItems : TreeItems := [("a", { id := "a", children := ["a"] })]

/-- Claim C1, counterexample: on a tree whose root's childIds mention the
dangling id `"a"` with no entry in `items`, `flattenTree` throws a
`TypeError` (reading `id` of `undefined`) instead of skipping the id and
returning a list, contradicting the claim that the call does not throw
and excludes the dangling id from the output.  (The result is the same
for every positive fuel; the amended theorem shows no fuel makes the call
return a list.) -/
theorem C1_flattenTree_counterexample :
    flattenTreeF 5 flatDanglingItems "root" = FlatRes.typeError := by decide

/-- Claim C1, amended: for every tree and starting rootId, `flattenTree`
returns `[]` when the rootId has no entry in `items`; an id occurring in
a children list with no entry in `items` is not skipped — the call throws
and never returns a list; every item of a successfully returned list is
an entry of `items`; but on inputs with shared children the returned list
can repeat an id, and on cyclic inputs the recursion does not terminate
(it exhausts every fuel). -/
theorem C1_flattenTree_amended :
    (∀ (fuel : Nat) (items : TreeItems) (rootId : String),
       jsGet items rootId = none → flattenTreeF fuel items rootId = FlatRes.ok []) ∧
    (∀ (fuel : Nat) (items : TreeItems) (rootId : String) (root : TreeItemModel)
       (c : String), jsGet items rootId = some root → c ∈ root.children →
       jsGet items c = none →
       ∀ l, flattenTreeF fuel items rootId ≠ FlatRes.ok l) ∧
    (∀ (fuel : Nat) (items : TreeItems) (rootId : String) (l : List TreeItemModel),
       flattenTreeF fuel items rootId = FlatRes.ok l →
       ∀ it ∈ l, ∃ k, jsGet items k = some it) ∧
    (∃ l, flattenTreeF 10 flatSharedItems "root" = FlatRes.ok l ∧
       ¬ (l.map TreeItemModel.id).Nodup) ∧
    (∀ fuel, flattenTreeF fuel flatCycItems "a" = FlatRes.outOfFuel) := by
  refine ⟨flattenTreeF_missing_root,
    fun fuel items rootId root c h1 h2 h3 =>
      flattenTreeF_not_ok_of_dangling_child fuel items rootId root c h1 h2 h3,
    fun fuel => flattenTreeF_mem_of_ok fuel, ?_, ?_⟩
  · exact ⟨[{ id := "a", children := ["c"] }, { id := "c", children := [] },
            { id := "b", children := ["c"] }, { id := "c", children := [] }],
      by decide, by decide⟩
  · intro fuel
    induction fuel with
    | zero => decide
    | succ fuel ih =>
      rw [flattenTreeF_succ]
      have : jsGet flatCycItems "a" = some { id := "a", children := ["a"] } := by decide
      rw [this]
      show flattenChildrenF (flattenTreeF fuel) flatCycItems ["a"] = FlatRes.outOfFuel
      unfold flattenChildrenF
      rw [this]
      simp only [ih]

/-- Claim C1, witness: the amended theorem applied at concrete inputs —
a missing rootId returns `[]`, and the dangling-child tree never returns
a list. -/
theorem C1_flattenTree_witness :
    flattenTreeF 3 flatDanglingItems "zzz" = FlatRes.ok [] ∧
    flattenTreeF 1 flatDanglingItems "root" ≠ FlatRes.ok [] :=
  ⟨C1_flattenTree_amended.1 3 flatDanglingItems "zzz" (by decide),
   C1_flattenTree_amended.2.1 1 flatDanglingItems "root"
     { id := "root", children := ["a"] } "a" (by decide) (by decide) (by decide) []⟩

/-! ## `deleteItem` (tree.ts lines 94-126)

```ts
function deleteItem(tree, id) {
    if (id === ROOT_ID) { console.warn(...); return cloneDeep(tree); }
    let newTree = cloneDeep(tree);
    const childrenAndGrandchildren = flattenTree(newTree, id);
    const allIdsToDelete = [id, ...childrenAndGrandchildren.map(item => item.id)];
    forEach(newTree.items, (item) => {
        if (item.children.includes(id)) { pull(item.children, id); }
    });
    allIdsToDelete.forEach(itemId => {
        if (itemId !== ROOT_ID) { delete newTree.items[itemId]; }
    });
    return newTree;
}
```

`cloneDeep` is the identity on values, so the `id === ROOT_ID` early
return is modelled as returning the tree itself.  `pull` removes every
occurrence of `id` from the matched item's `children`; the `forEach`
here does not break, so every item containing `id` is detached.  A
`flattenTree` throw propagates out of `deleteItem`. -/

inductive TreeRes where
  | ok (t : TreeModel)
  | typeError
  | outOfFuel
  deriving Repr, DecidableEq

/-- The `forEach`/`pull` step of `deleteItem` applied to one item: if the
item's children include `id`, every occurrence of `id` is pulled out. -/
def detachChild (id : String) (item : TreeItemModel) : TreeItemModel :=
  if id ∈ item.children then
    { item with children := item.children.filter (fun x => x ≠ id) }
  else item

/-- The key-deletion step of `deleteItem`: an entry is kept when its key
is the root id (never deleted) or is not scheduled for deletion. -/
def keepAfterDelete (allIdsToDelete : List String) (k : String) : Bool :=
  decide (k = ROOT_ID ∨ k ∉ allIdsToDelete)

def deleteItemF (fuel : Nat) (tree : TreeModel) (id : String) : TreeRes :=
  if id = ROOT_ID then .ok tree
  else
    match flattenTreeF fuel tree.items id with
    | .ok childrenAndGrandchildren =>
      let allIdsToDelete := id :: childrenAndGrandchildren.map (fun item => item.id)
      let items1 := tree.items.map (fun kv => (kv.1, detachChild id kv.2))
      let items2 := items1.filter (fun kv => keepAfterDelete allIdsToDelete kv.1)
      .ok { tree with items := items2 }
    | .typeError => .typeError
    | .outOfFuel => .outOfFuel

/-! ### Association-list helper lemmas -/

theorem jsGet_map_value {α β : Type} (f : α → β) (l : List (String × α)) (k : String) :
    jsGet (l.map (fun kv => (kv.1, f kv.2))) k = (jsGet l k).map f := by
  induction l with
  | nil => rfl
  | cons kv rest ih =>
    by_cases h : kv.1 = k <;> simp [jsGet, h, ih]

theorem jsGet_filter_key {α : Type} (p : String → Bool) (l : List (String × α)) (k : String) :
    jsGet (l.filter (fun kv => p kv.1)) k = if p k then jsGet l k else none := by
  induction l with
  | nil => simp [jsGet]
  | cons kv rest ih =>
    by_cases h : kv.1 = k
    · subst h
      by_cases hp : p kv.1 <;> simp [jsGet, hp, ih]
    · by_cases hp : p kv.1 <;> simp [jsGet, h, hp, ih]

theorem jsGet_append {α : Type} (a b : List (String × α)) (k : String) :
    jsGet (a ++ b) k = ((jsGet a k).or (jsGet b k)) := by
  induction a with
  | nil => simp [jsGet]
  | cons kv rest ih =>
    by_cases h : kv.1 = k <;> simp [jsGet, h, ih]

theorem exceptOkBind {ε α β : Type} (a : α) (f : α → Except ε β) :
    (Except.ok a >>= f : Except ε β) = f a := rfl

theorem exceptErrBind {ε α β : Type} (e : ε) (f : α → Except ε β) :
    ((Except.error e : Except ε α) >>= f) = Except.error e := rfl

theorem mem_of_jsGet {α : Type} (l : List (String × α)) (k : String) (v : α)
    (h : jsGet l k = some v) : (k, v) ∈ l := by
  induction l with
  | nil => simp [jsGet] at h
  | cons kv rest ih =>
    rw [jsGet] at h
    by_cases hk : kv.1 = k
    · rw [if_pos hk] at h
      cases h
      subst hk
      exact List.mem_cons_self _ _
    · rw [if_neg hk] at h
      exact List.mem_cons_of_mem _ (ih h)

/-! ### Claim C6 -/

/-- A tree whose `items` record has no entry for the root id. -/
def delNoRootTree : TreeModel :=
  { rootId := ROOT_ID, items := [("a", { id := "a", children := [] })] }

/-- Claim C6, counterexample: on a tree whose `items` lack an entry for
the root id, `deleteItem` of the ordinary id `"a"` succeeds and returns a
tree whose `items` are empty — in particular the root id is not present
afterwards, contradicting the claim that the root id is always present in
the resulting items regardless of input (`deleteItem` never synthesises a
root entry; it only refrains from deleting one). -/
theorem C6_deleteItem_counterexample :
    deleteItemF 5 delNoRootTree "a" = TreeRes.ok { rootId := ROOT_ID, items := [] } ∧
    jsGet ([] : TreeItems) ROOT_ID = none := by decide

/-- Claim C6, amended: `deleteItem(T, root)` is a no-op returning the
tree unchanged; when `flattenTree(T, id)` throws, `deleteItem` throws;
otherwise it removes exactly the non-root ids of
`\x7bid\x7d ∪ flattenTree(T, id)` from `items`, detaches `id` from the
childIds of every remaining item, and the root entry — never deleted but
never synthesised either — is present afterwards if and only if it was
present before. -/
theorem C6_deleteItem_amended :
    (∀ (fuel : Nat) (T : TreeModel), deleteItemF fuel T ROOT_ID = TreeRes.ok T) ∧
    (∀ (fuel : Nat) (T : TreeModel) (id : String), id ≠ ROOT_ID →
       flattenTreeF fuel T.items id = FlatRes.typeError →
       deleteItemF fuel T id = TreeRes.typeError) ∧
    (∀ (fuel : Nat) (T : TreeModel) (id : String) (desc : List TreeItemModel),
       id ≠ ROOT_ID → flattenTreeF fuel T.items id = FlatRes.ok desc →
       ∃ T', deleteItemF fuel T id = TreeRes.ok T' ∧ T'.rootId = T.rootId ∧
         (∀ k, k ∈ id :: desc.map (fun it => it.id) → k ≠ ROOT_ID →
            jsGet T'.items k = none) ∧
         (∀ k, (k ∉ id :: desc.map (fun it => it.id) ∨ k = ROOT_ID) →
            jsGet T'.items k = (jsGet T.items k).map (detachChild id)) ∧
         ((jsGet T'.items ROOT_ID).isSome ↔ (jsGet T.items ROOT_ID).isSome)) := by
  refine ⟨fun fuel T => by simp [deleteItemF, ROOT_ID],
    fun fuel T id hid hflat => by simp [deleteItemF, hid, hflat], ?_⟩
  intro fuel T id desc hid hflat
  refine ⟨(⟨T.rootId,
      (T.items.map (fun kv => (kv.1, detachChild id kv.2))).filter
        (fun kv => keepAfterDelete (id :: desc.map (fun item => item.id)) kv.1)⟩ :
        TreeModel),
    by simp [deleteItemF, hid, hflat], rfl, ?_, ?_, ?_⟩
  · intro k hk hkroot
    rw [jsGet_filter_key]
    rw [if_neg]
    simp [keepAfterDelete, hkroot, hk]
  · intro k hk
    rw [jsGet_filter_key, jsGet_map_value]
    rcases hk with hk | hk
    · rw [if_pos]
      simp [keepAfterDelete, hk]
    · subst hk
      rw [if_pos]
      simp [keepAfterDelete]
  · constructor
    · intro h
      rw [jsGet_filter_key, jsGet_map_value] at h
      by_cases hp : keepAfterDelete (id :: desc.map (fun item => item.id)) ROOT_ID = true
      · rw [if_pos hp] at h
        simpa using h
      · rw [if_neg hp] at h
        simp at h
    · intro h
      rw [jsGet_filter_key, jsGet_map_value, if_pos]
      · simpa using h
      · simp [keepAfterDelete]

/-- The tree `root → a → b`, used to witness the amended C6 theorem. -/
def delWitnessTree : TreeModel :=
  { rootId := ROOT_ID,
    items := [(ROOT_ID, { id := ROOT_ID, children := ["a"] }),
              ("a", { id := "a", children := ["b"] }),
              ("b", { id := "b", children := [] })] }

/-- Claim C6, witness: the amended theorem applied to the concrete tree
`root → a → b` with `id = "a"`: the call succeeds, `"a"` and `"b"` are
gone, the root is present exactly as before with `"a"` detached. -/
theorem C6_deleteItem_witness :
    ∃ T', deleteItemF 5 delWitnessTree "a" = TreeRes.ok T' ∧
      T'.rootId = ROOT_ID ∧
      (∀ k, k ∈ ["a", "b"] → k ≠ ROOT_ID → jsGet T'.items k = none) ∧
      jsGet T'.items ROOT_ID = some { id := ROOT_ID, children := [] } := by
  obtain ⟨T', hdel, hroot, hgone, hkeep, -⟩ :=
    C6_deleteItem_amended.2.2 5 delWitnessTree "a"
      [{ id := "b", children := [] }] (by decide) (by decide)
  refine ⟨T', hdel, hroot, ?_, ?_⟩
  · intro k hk hkroot
    apply hgone k _ hkroot
    simpa [delWitnessTree] using hk
  · rw [hkeep ROOT_ID (Or.inr rfl)]
    decide

/-! ## `addItem`, `removeItem`, `restoreItem` (tree.ts lines 33-48, 61-70, 87-92)

```ts
function addItem(tree, id, pid = ROOT_ID) {
    tree.items[id] = tree.items[id] || { id, children: [] };
    const parentItem = tree.items[pid];
    if (parentItem) { parentItem.children = [...parentItem.children, id]; }
    else { throw new Error(...); }
    return tree;
}
```

`addItem` mutates the tree object it is given: the `id` record is
(created and) stored into `tree.items` before the parent check, and on
success the parent's `children` array is replaced in place; the function
returns the very same (now mutated) tree object.  The embedding makes
the final value of the caller's tree argument explicit: `Except.ok t`
means the call returned normally with the input argument now equal to
`t` (and `t` is also the return value); `Except.error t` means the call
threw with the input argument left equal to `t`.

```ts
function removeItem(tree, id) {
    forEach(tree.items, (item) => {
        if (item.children.includes(id)) { pull(item.children, id); return false; }
    });
    return cloneDeep(tree);
}
```

`removeItem` mutates the first item whose `children` contain `id`
(`pull` removes every occurrence, `return false` stops the scan) and then
returns a deep copy — value-equal to the mutated input. -/

def addItemJS (tree : TreeModel) (id : String) (pid : String) : Except TreeModel TreeModel :=
  let items1 := if (jsGet tree.items id).isSome then tree.items
                else tree.items ++ [(id, { id := id, children := [] })]
  let tree1 : TreeModel := { tree with items := items1 }
  match jsGet tree1.items pid with
  | some parentItem =>
    let parentItem2 : TreeItemModel :=
      { parentItem with children := parentItem.children ++ [id] }
    .ok { tree1 with items := jsSetExisting tree1.items pid parentItem2 }
  | none => .error tree1

/-- Final value of the caller's tree argument after `addItem` (the input
object is mutated whether or not the call throws). -/
def addItemAfter (tree : TreeModel) (id : String) (pid : String) : TreeModel :=
  match addItemJS tree id pid with
  | .ok t => t
  | .error t => t

/-- The `forEach`/`pull`-with-break of `removeItem`: detach `id` from the
first item whose children contain it. -/
def removeChildrenFirst (id : String) : TreeItems → TreeItems
  | [] => []
  | (k, it) :: rest =>
    if id ∈ it.children then
      (k, { it with children := it.children.filter (fun x => x ≠ id) }) :: rest
    else (k, it) :: removeChildrenFirst id rest

/-- `removeItem`: this single value is both the final value of the
(mutated) input argument and the returned deep copy. -/
def removeItemF (tree : TreeModel) (id : String) : TreeModel :=
  { tree with items := removeChildrenFirst id tree.items }

/-- `restoreItem(tree, id, pid)`: `removeItem` then `addItem`. -/
def restoreItemJS (tree : TreeModel) (id : String) (pid : String) :
    Except TreeModel TreeModel :=
  addItemJS (removeItemF tree id) id pid

theorem jsGet_jsSetExisting_self {α : Type} (l : List (String × α)) (key : String)
    (v : α) (h : (jsGet l key).isSome) :
    jsGet (jsSetExisting l key v) key = some v := by
  induction l with
  | nil => simp [jsGet] at h
  | cons kv rest ih =>
    by_cases hk : kv.1 = key
    · simp [jsGet, jsSetExisting, hk]
    · simp [jsGet, hk, jsSetExisting] at h ⊢
      exact ih h

theorem jsGet_jsSetExisting_other {α : Type} (l : List (String × α)) (key k : String)
    (v : α) (h : k ≠ key) :
    jsGet (jsSetExisting l key v) k = jsGet l k := by
  induction l with
  | nil => simp [jsSetExisting]
  | cons kv rest ih =>
    rw [jsSetExisting]
    by_cases hk : kv.1 = key
    · rw [if_pos hk]
      have hk1 : kv.1 ≠ k := by rw [hk]; exact Ne.symm h
      simp [jsGet, hk1]
    · rw [if_neg hk]
      by_cases hk2 : kv.1 = k <;> simp [jsGet, hk2, ih]

/-! ### Claim C7 -/

/-- Claim C7, counterexample: `addItem(DEFAULT_TREE, "a", "p")` with the
non-existent parent `"p"` throws — but before throwing it has already
stored the fresh record for `"a"` into the input tree's `items`,
contradicting the claim that a failed call creates or modifies no item
record. -/
theorem C7_addItem_counterexample :
    addItemJS DEFAULT_TREE "a" "p" =
      Except.error
        ({ rootId := ROOT_ID,
           items := [(ROOT_ID, { id := ROOT_ID, children := [] }),
                     ("a", { id := "a", children := [] })] } : TreeModel) := by decide

/-- Claim C7, amended: `addItem` with a `parentId` that is not a key in
`items` (and differs from `id`) fails synchronously; the failed call
modifies no existing item record and touches no childIds, but it does
create the item record for `id` (if absent) in the input tree before
throwing. -/
theorem C7_addItem_amended (tree : TreeModel) (id pid : String)
    (hmiss : jsGet tree.items pid = none) (hne : pid ≠ id) :
    ∃ t', addItemJS tree id pid = Except.error t' ∧
      (∀ k, k ≠ id → jsGet t'.items k = jsGet tree.items k) ∧
      jsGet t'.items id = some ((jsGet tree.items id).getD { id := id, children := [] }) := by
  by_cases hid : (jsGet tree.items id).isSome
  · obtain ⟨it, hit⟩ := Option.isSome_iff_exists.mp hid
    refine ⟨{ tree with items := tree.items }, ?_, ?_, ?_⟩
    · simp [addItemJS, hid, hmiss]
    · intro k _; rfl
    · simp [hit]
  · have hid' : jsGet tree.items id = none := Option.not_isSome_iff_eq_none.mp hid
    refine ⟨{ tree with items := tree.items ++ [(id, { id := id, children := [] })] },
      ?_, ?_, ?_⟩
    · have : jsGet (tree.items ++ [(id, { id := id, children := [] })]) pid = none := by
        rw [jsGet_append, hmiss]
        simp [jsGet, Ne.symm hne]
      simp [addItemJS, hid, this]
    · intro k hk
      rw [jsGet_append]
      simp [jsGet, Ne.symm hk]
    · rw [jsGet_append, hid']
      simp [jsGet]

/-- Claim C7, witness: the amended theorem at `DEFAULT_TREE`, `id = "a"`,
`parentId = "p"`. -/
theorem C7_addItem_witness :
    ∃ t', addItemJS DEFAULT_TREE "a" "p" = Except.error t' ∧
      (∀ k, k ≠ "a" → jsGet t'.items k = jsGet DEFAULT_TREE.items k) ∧
      jsGet t'.items "a" =
        some ((jsGet DEFAULT_TREE.items "a").getD { id := "a", children := [] }) :=
  C7_addItem_amended DEFAULT_TREE "a" "p" (by decide) (by decide)

/-! ### Claim C8 -/

/-- A root with one child `"a"`, used to exhibit the `removeItem`
mutation. -/
def remMutTree : TreeModel :=
  { rootId := ROOT_ID, items := [(ROOT_ID, { id := ROOT_ID, children := ["a"] }),
                                 ("a", { id := "a", children := [] })] }

/-- Claim C8, counterexample: a successful `addItem` call leaves the
caller's tree argument different from what was passed in (the fresh
`"a"` record was stored and the root's childIds grew), contradicting the
claim that every tree-algebra operation leaves the input tree argument
unchanged. -/
theorem C8_mutation_counterexample :
    addItemAfter DEFAULT_TREE "a" ROOT_ID ≠ DEFAULT_TREE := by decide

/-- Claim C8, amended: `mutateItem` and `moveItem` delegate to the
external tree library and `deleteItem` deep-copies before mutating, so
those leave the input unchanged; but `addItem` mutates the input tree in
place — creating the `id` record and appending `id` to the parent's
childIds — and returns that same mutated tree, `removeItem` pulls `id`
out of the first containing parent's childIds by mutating the input
before returning a value-equal deep copy (a no-op value when no item
contains `id`), and `restoreItem` is the composition of the two and
inherits their input mutations. -/
theorem C8_mutation_amended :
    (∀ (tree : TreeModel) (id pid : String) (parent : TreeItemModel),
       jsGet tree.items pid = some parent → pid ≠ id →
       addItemJS tree id pid = Except.ok (addItemAfter tree id pid) ∧
       jsGet (addItemAfter tree id pid).items pid =
         some { parent with children := parent.children ++ [id] }) ∧
    removeItemF remMutTree "a" ≠ remMutTree ∧
    (∀ (tree : TreeModel) (id : String),
       (∀ kv ∈ tree.items, id ∉ kv.2.children) → removeItemF tree id = tree) ∧
    (∀ (tree : TreeModel) (id pid : String),
       restoreItemJS tree id pid = addItemJS (removeItemF tree id) id pid) := by
  refine ⟨?_, by decide, ?_, fun tree id pid => rfl⟩
  · intro tree id pid parent hpid hne
    have hpid1 : jsGet (if (jsGet tree.items id).isSome then tree.items
        else tree.items ++ [(id, { id := id, children := [] })]) pid = some parent := by
      by_cases hid : (jsGet tree.items id).isSome
      · simpa [hid]
      · rw [if_neg hid, jsGet_append, hpid]
        rfl
    constructor
    · simp [addItemJS, addItemAfter, hpid1]
    · simp only [addItemAfter, addItemJS, hpid1]
      apply jsGet_jsSetExisting_self
      simp [hpid1]
  · intro tree id hnone
    have key : ∀ l : TreeItems, (∀ kv ∈ l, id ∉ kv.2.children) →
        removeChildrenFirst id l = l := by
      intro l
      induction l with
      | nil => intro _; rfl
      | cons kv rest ih =>
        intro hl
        obtain ⟨k, it⟩ := kv
        rw [removeChildrenFirst]
        rw [if_neg (hl (k, it) (List.mem_cons_self _ _))]
        rw [ih (fun kv' h => hl kv' (List.mem_cons_of_mem _ h))]
    simp [removeItemF, key tree.items hnone]

/-- Claim C8, witness: the amended theorem's `addItem` clause at
`DEFAULT_TREE`, `id = "a"`, `parentId = root`: the call succeeds and the
final value of the input argument records `"a"` under the root. -/
theorem C8_mutation_witness :
    addItemJS DEFAULT_TREE "a" ROOT_ID = Except.ok (addItemAfter DEFAULT_TREE "a" ROOT_ID) ∧
    jsGet (addItemAfter DEFAULT_TREE "a" ROOT_ID).items ROOT_ID =
      some { id := ROOT_ID, children := [] ++ ["a"] } :=
  C8_mutation_amended.1 DEFAULT_TREE "a" ROOT_ID
    { id := ROOT_ID, children := [] } (by decide) (by decide)

/-! ## `cleanItemModel` / `cleanTreeModel` (tree.ts lines 173-227)

```ts
export function cleanItemModel(model: Partial<TreeItemModel>): TreeItemModel {
    if (!model.id) throw new Error("Missing id on tree model");
    const children = model.children ?? [];
    return { ...model, id: model.id, children,
             hasChildren: children.length > 0,
             data: model.data, isExpanded: model.isExpanded ?? false };
}
export function cleanTreeModel(model: Partial<TreeModel>): TreeModel {
    const items: TreeModel["items"] = {};
    if (model.items) {
        for (const itemId in model.items) {
            const item = model.items[itemId];
            if (!item) continue;
            const cleanedItem = cleanItemModel(item);
            const children = [];
            for (const child of cleanedItem.children) {
                if (child && model.items[child]) children.push(child);
            }
            items[itemId] = { ...cleanedItem, children };
        }
    }
    if (!items[ROOT_ID]) {
        items[ROOT_ID] = { id: ROOT_ID, children: [], hasChildren: false,
                           isExpanded: true };
    }
    return { ...model, rootId: model.rootId ?? ROOT_ID, items: items };
}
```

These functions take `Partial<...>` inputs whose fields may all be
missing and whose `items` entries may be null, so they get their own
embedding with optional fields (`PItem`, `PTree`).  `!model.id` is truthy
for a missing id and for the empty string; a throw is `Except.error ()`. -/

structure PItem where
  id : Option String := none
  children : Option (List String) := none
  data : Option String := none
  hasChildren : Option Bool := none
  isExpanded : Option Bool := none
  deriving Repr, DecidableEq

abbrev PItems := List (String × Option PItem)

structure PTree where
  rootId : Option String := none
  items : Option PItems := none
  deriving Repr, DecidableEq

/-- JavaScript falsiness of `model.id`: missing or the empty string. -/
def jsFalsyId : Option String → Bool
  | none => true
  | some s => decide (s = "")

def cleanItemModelF (model : PItem) : Except Unit PItem :=
  if jsFalsyId model.id then .error ()
  else
    let children := model.children.getD []
    .ok { id := model.id,
          children := some children,
          hasChildren := some (decide (0 < children.length)),
          data := model.data,
          isExpanded := some (model.isExpanded.getD false) }

/-- Entry truthiness `model.items[child]`: the key is bound to a non-null
item. -/
def truthyEntry (items : PItems) (k : String) : Bool :=
  match jsGet items k with
  | some (some _) => true
  | _ => false

/-- The child filter `child && model.items[child]` of `cleanTreeModel`. -/
def keepChild (rawItems : PItems) (child : String) : Bool :=
  if child = "" then false else truthyEntry rawItems child

/-- The per-entry body of `cleanTreeModel`'s loop. -/
def cleanOneItem (rawItems : PItems) (item : PItem) : Except Unit PItem := do
  let cleanedItem ← cleanItemModelF item
  let children := (cleanedItem.children.getD []).filter (keepChild rawItems)
  .ok { cleanedItem with children := some children }

/-- The `for (const itemId in model.items)` loop: null entries are
skipped, the rest are cleaned in order; a `cleanItemModel` throw aborts
the whole pass. -/
def cleanItemsPass (rawItems : PItems) : PItems → Except Unit PItems
  | [] => .ok []
  | (itemId, entry) :: rest =>
    match entry with
    | none => cleanItemsPass rawItems rest
    | some item => do
      let c ← cleanOneItem rawItems item
      let r ← cleanItemsPass rawItems rest
      .ok ((itemId, some c) :: r)

/-- The synthesised root entry. -/
def defaultRootItem : PItem :=
  { id := some ROOT_ID, children := some [], hasChildren := some false,
    isExpanded := some true }

def cleanTreeModelF (model : PTree) : Except Unit PTree := do
  let rawItems := model.items.getD []
  let items ← cleanItemsPass rawItems rawItems
  let items2 := if truthyEntry items ROOT_ID then items
                else items ++ [(ROOT_ID, some defaultRootItem)]
  .ok { rootId := some (model.rootId.getD ROOT_ID), items := some items2 }

/-! ### Facts about the clean pass -/

/-- Recomputation of `hasChildren` from the (current) children list —
the only field a second clean pass can change on an already-cleaned
item. -/
def fixHC (c : PItem) : PItem :=
  { c with hasChildren := some (decide (0 < (c.children.getD []).length)) }

/-- Shape of the entries a clean pass produces, relative to the list
`base` its children are checked against: the value is a non-null item
with a truthy id, a present `isExpanded`, and a children list every
element of which passes the child filter over `base`. -/
def GoodEntry (base : PItems) (kv : String × Option PItem) : Prop :=
  ∃ c, kv.2 = some c ∧ jsFalsyId c.id = false ∧ c.isExpanded.isSome ∧
    ∃ ch, c.children = some ch ∧ ∀ x ∈ ch, keepChild base x = true

theorem truthyEntry_append (l z : PItems) (x : String)
    (h : truthyEntry l x = true) : truthyEntry (l ++ z) x = true := by
  unfold truthyEntry at h ⊢
  rw [jsGet_append]
  cases hx : jsGet l x with
  | none => rw [hx] at h; simp at h
  | some v =>
    cases v with
    | none => rw [hx] at h; simp at h
    | some c => rfl

theorem truthyEntry_map (f : PItem → PItem) (l : PItems) (x : String) :
    truthyEntry (l.map (fun kv => (kv.1, kv.2.map f))) x = truthyEntry l x := by
  unfold truthyEntry
  rw [jsGet_map_value]
  cases hx : jsGet l x with
  | none => rfl
  | some v => cases v <;> rfl

theorem keepChild_map (f : PItem → PItem) (l : PItems) (x : String) :
    keepChild (l.map (fun kv => (kv.1, kv.2.map f))) x = keepChild l x := by
  unfold keepChild
  rw [truthyEntry_map]

theorem keepChild_append (l z : PItems) (x : String)
    (h : keepChild l x = true) : keepChild (l ++ z) x = true := by
  unfold keepChild at h ⊢
  by_cases hx : x = ""
  · rw [if_pos hx] at h; cases h
  · rw [if_neg hx] at h ⊢
    exact truthyEntry_append l z x h

/-- On an already-cleaned item whose children all pass the filter,
`cleanOneItem` only recomputes `hasChildren`. -/
theorem cleanOneItem_good (raw : PItems) (c : PItem) (ch : List String)
    (hid : jsFalsyId c.id = false) (hch : c.children = some ch)
    (hexp : c.isExpanded.isSome)
    (hkeep : ∀ x ∈ ch, keepChild raw x = true) :
    cleanOneItem raw c = Except.ok (fixHC c) := by
  obtain ⟨b, hb⟩ := Option.isSome_iff_exists.mp hexp
  simp only [cleanOneItem, cleanItemModelF, hid, Bool.false_eq_true, if_false,
    hch, hb, Option.getD_some, exceptOkBind]
  rw [List.filter_eq_self.mpr hkeep]
  simp [fixHC, hch, hb]

/-- A pass over good entries succeeds and only recomputes each
`hasChildren`. -/
theorem cleanItemsPass_of_good (base : PItems) :
    ∀ (l : PItems), (∀ kv ∈ l, GoodEntry base kv) →
      cleanItemsPass base l = Except.ok (l.map (fun kv => (kv.1, kv.2.map fixHC))) := by
  intro l
  induction l with
  | nil => intro _; rfl
  | cons kv rest ih =>
    intro hl
    obtain ⟨c, hv, hid, hexp, ch, hch, hkeep⟩ := hl kv (List.mem_cons_self _ _)
    obtain ⟨k, v⟩ := kv
    simp only at hv
    subst hv
    simp only [cleanItemsPass,
      cleanOneItem_good base c ch hid hch hexp hkeep, exceptOkBind,
      ih (fun kv' h => hl kv' (List.mem_cons_of_mem _ h)), List.map_cons]
    rfl

/-- Every entry a clean pass outputs is good (with children checked
against the raw input) and carries a computed `hasChildren`. -/
theorem goodEntry_of_cleanItemsPass (raw : PItems) :
    ∀ (l out : PItems), cleanItemsPass raw l = Except.ok out →
      ∀ kv ∈ out, ∃ c, kv.2 = some c ∧ jsFalsyId c.id = false ∧
        c.isExpanded.isSome ∧ c.hasChildren.isSome ∧
        ∃ ch, c.children = some ch ∧ ∀ x ∈ ch, keepChild raw x = true := by
  intro l
  induction l with
  | nil =>
    intro out h
    simp only [cleanItemsPass] at h
    cases h
    simp
  | cons kv rest ih =>
    intro out h
    obtain ⟨k, v⟩ := kv
    cases v with
    | none => exact ih out h
    | some item =>
      simp only [cleanItemsPass] at h
      cases hone : cleanOneItem raw item with
      | error e => rw [hone] at h; simp [exceptErrBind] at h
      | ok c =>
        rw [hone] at h
        cases hrest : cleanItemsPass raw rest with
        | error e => rw [hrest] at h; simp [exceptOkBind, exceptErrBind] at h
        | ok r =>
          rw [hrest] at h
          simp only [exceptOkBind, Except.ok.injEq] at h
          subst h
          intro kv' hkv'
          rcases List.mem_cons.mp hkv' with rfl | hmem
          · refine ⟨c, rfl, ?_⟩
            simp only [cleanOneItem, cleanItemModelF] at hone
            by_cases hid : jsFalsyId item.id = true
            · rw [if_pos hid] at hone
              simp [exceptErrBind] at hone
            · rw [if_neg hid] at hone
              simp only [exceptOkBind, Except.ok.injEq] at hone
              subst hone
              refine ⟨by simpa using hid, by simp, by simp, _, rfl, ?_⟩
              intro x hx
              exact (List.mem_filter.mp (by simpa using hx)).2
          · exact ih r hrest kv' hmem

/-- A truthy binding in the scanned list survives the pass: the first
binding of `x` being non-null, the cleaned list binds `x` to a non-null
item as well. -/
theorem truthy_preserved_by_pass (raw : PItems) :
    ∀ (l out : PItems), cleanItemsPass raw l = Except.ok out →
      ∀ (x : String) (it : PItem), jsGet l x = some (some it) →
        ∃ c, jsGet out x = some (some c) := by
  intro l
  induction l with
  | nil =>
    intro out h x it hx
    simp [jsGet] at hx
  | cons kv rest ih =>
    intro out h x it hx
    obtain ⟨k, v⟩ := kv
    by_cases hk : k = x
    · subst hk
      rw [jsGet, if_pos rfl] at hx
      have hv : v = some it := by
        cases hx; rfl
      subst hv
      simp only [cleanItemsPass] at h
      cases hone : cleanOneItem raw it with
      | error e => rw [hone] at h; simp [exceptErrBind] at h
      | ok c =>
        rw [hone] at h
        cases hrest : cleanItemsPass raw rest with
        | error e => rw [hrest] at h; simp [exceptOkBind, exceptErrBind] at h
        | ok r =>
          rw [hrest] at h
          simp only [exceptOkBind, Except.ok.injEq] at h
          subst h
          exact ⟨c, by simp [jsGet]⟩
    · rw [jsGet, if_neg hk] at hx
      cases v with
      | none => exact ih out h x it hx
      | some item =>
        simp only [cleanItemsPass] at h
        cases hone : cleanOneItem raw item with
        | error e => rw [hone] at h; simp [exceptErrBind] at h
        | ok c =>
          rw [hone] at h
          cases hrest : cleanItemsPass raw rest with
          | error e => rw [hrest] at h; simp [exceptOkBind, exceptErrBind] at h
          | ok r =>
            rw [hrest] at h
            simp only [exceptOkBind, Except.ok.injEq] at h
            subst h
            obtain ⟨c', hc'⟩ := ih r hrest x it hx
            exact ⟨c', by simpa [jsGet, hk] using hc'⟩

/-- The output of a full clean is a tree with present rootId and items,
whose entries are all good relative to the output itself, and whose
items bind the root id to a non-null entry. -/
theorem good_of_clean (m T1 : PTree) (h : cleanTreeModelF m = Except.ok T1) :
    ∃ (items2 : PItems) (r : String),
      T1 = { rootId := some r, items := some items2 } ∧
      (∀ kv ∈ items2, GoodEntry items2 kv) ∧
      truthyEntry items2 ROOT_ID = true := by
  simp only [cleanTreeModelF] at h
  set raw := m.items.getD [] with hraw
  cases hpass : cleanItemsPass raw raw with
  | error e => rw [hpass] at h; simp [exceptErrBind] at h
  | ok out =>
    rw [hpass] at h
    simp only [exceptOkBind, Except.ok.injEq] at h
    subst h
    have hout := goodEntry_of_cleanItemsPass raw raw out hpass
    have htransfer : ∀ x, keepChild raw x = true → keepChild out x = true := by
      intro x hx
      unfold keepChild at hx ⊢
      by_cases hxe : x = ""
      · rw [if_pos hxe] at hx; cases hx
      · rw [if_neg hxe] at hx ⊢
        unfold truthyEntry at hx
        cases hgx : jsGet raw x with
        | none => rw [hgx] at hx; simp at hx
        | some v =>
          cases v with
          | none => rw [hgx] at hx; simp at hx
          | some it =>
            obtain ⟨c, hc⟩ := truthy_preserved_by_pass raw raw out hpass x it hgx
            unfold truthyEntry
            rw [hc]
    by_cases hroot : truthyEntry out ROOT_ID = true
    · refine ⟨out, (m.rootId.getD ROOT_ID), by simp [hroot], ?_, hroot⟩
      intro kv hkv
      obtain ⟨c, hv, hid, hexp, -, ch, hch, hkeep⟩ := hout kv hkv
      exact ⟨c, hv, hid, hexp, ch, hch, fun x hx => htransfer x (hkeep x hx)⟩
    · have hroot' : truthyEntry out ROOT_ID = false := by
        cases hb : truthyEntry out ROOT_ID
        · rfl
        · exact absurd hb hroot
      refine ⟨out ++ [(ROOT_ID, some defaultRootItem)], (m.rootId.getD ROOT_ID),
        by simp [hroot'], ?_, ?_⟩
      · intro kv hkv
        rcases List.mem_append.mp hkv with hkv | hkv
        · obtain ⟨c, hv, hid, hexp, -, ch, hch, hkeep⟩ := hout kv hkv
          exact ⟨c, hv, hid, hexp, ch, hch, fun x hx =>
            keepChild_append out _ x (htransfer x (hkeep x hx))⟩
        · simp only [List.mem_singleton] at hkv
          subst hkv
          exact ⟨defaultRootItem, rfl, by decide, by decide,
            [], rfl, by simp⟩
      · unfold truthyEntry
        rw [jsGet_append]
        unfold truthyEntry at hroot'
        cases hgx : jsGet out ROOT_ID with
        | none => simp [jsGet]
        | some v =>
          cases v with
          | none =>
            obtain ⟨c, hc, -⟩ := hout (ROOT_ID, none) (mem_of_jsGet out ROOT_ID none hgx)
            simp at hc
          | some c => rw [hgx] at hroot'; simp at hroot'

/-- Cleaning a good tree succeeds and only recomputes `hasChildren`. -/
theorem clean_of_good (items2 : PItems) (r : String)
    (hgood : ∀ kv ∈ items2, GoodEntry items2 kv)
    (hroot : truthyEntry items2 ROOT_ID = true) :
    cleanTreeModelF ({ rootId := some r, items := some items2 } : PTree) =
      Except.ok
        ({ rootId := some r,
           items := some (items2.map (fun kv => (kv.1, kv.2.map fixHC))) } : PTree) := by
  simp only [cleanTreeModelF, Option.getD_some,
    cleanItemsPass_of_good items2 items2 hgood, exceptOkBind]
  rw [truthyEntry_map fixHC items2 ROOT_ID, if_pos hroot]

/-- `fixHC` preserves goodness, and every fixed entry has its
`hasChildren` consistent with its children. -/
theorem good_of_mapped (items2 : PItems)
    (hgood : ∀ kv ∈ items2, GoodEntry items2 kv) :
    (∀ kv ∈ items2.map (fun kv => (kv.1, kv.2.map fixHC)),
       GoodEntry (items2.map (fun kv => (kv.1, kv.2.map fixHC))) kv) ∧
    (∀ kv ∈ items2.map (fun kv => (kv.1, kv.2.map fixHC)), ∀ c, kv.2 = some c →
       c.hasChildren = some (decide (0 < (c.children.getD []).length))) := by
  constructor
  · intro kv hkv
    obtain ⟨kv0, hkv0, hw⟩ := List.mem_map.mp hkv
    obtain ⟨c, hv, hid, hexp, ch, hch, hkeep⟩ := hgood kv0 hkv0
    subst hw
    refine ⟨fixHC c, by rw [hv]; rfl, by simpa [fixHC] using hid,
      by simpa [fixHC] using hexp, ch, by simpa [fixHC] using hch, ?_⟩
    intro x hx
    rw [keepChild_map]
    exact hkeep x hx
  · intro kv hkv c hc
    obtain ⟨kv0, hkv0, hw⟩ := List.mem_map.mp hkv
    obtain ⟨c0, hv, -, -, ch, hch, -⟩ := hgood kv0 hkv0
    subst hw
    simp only [hv] at hc
    rw [show Option.map fixHC (some c0) = some (fixHC c0) from rfl] at hc
    cases hc
    simp [fixHC]

/-- A good tree whose `hasChildren` fields are already consistent is a
fixed point of the clean pass. -/
theorem clean_fixpoint (items2 : PItems) (r : String)
    (hgood : ∀ kv ∈ items2, GoodEntry items2 kv)
    (hroot : truthyEntry items2 ROOT_ID = true)
    (hcons : ∀ kv ∈ items2, ∀ c, kv.2 = some c →
       c.hasChildren = some (decide (0 < (c.children.getD []).length))) :
    cleanTreeModelF ({ rootId := some r, items := some items2 } : PTree) =
      Except.ok ({ rootId := some r, items := some items2 } : PTree) := by
  rw [clean_of_good items2 r hgood hroot]
  have : items2.map (fun kv => (kv.1, kv.2.map fixHC)) = items2 := by
    have hcongr : ∀ kv ∈ items2, (kv.1, kv.2.map fixHC) = kv := by
      intro kv hkv
      obtain ⟨c, hv, -, -, ch, hch, -⟩ := hgood kv hkv
      have hfix : fixHC c = c := by
        unfold fixHC
        rw [← hcons kv hkv c hv]
      obtain ⟨k, v⟩ := kv
      simp only at hv
      subst hv
      simp [hfix]
    calc items2.map (fun kv => (kv.1, kv.2.map fixHC))
        = items2.map id := List.map_congr_left hcongr
      _ = items2 := List.map_id items2
  rw [this]

/-! ### Claim C9 -/

/-- A tree whose root references a dangling child `"ghost"`. -/
def cleanGhostTree : PTree :=
  { rootId := some ROOT_ID,
    items := some [(ROOT_ID, some { id := some ROOT_ID, children := some ["ghost"] })] }

/-- First clean of `cleanGhostTree`: the dangling child is dropped but
`hasChildren` was computed from the unfiltered children, so it reads
`true` over an empty children list. -/
def cleanGhostOnce : PTree :=
  { rootId := some ROOT_ID,
    items := some [(ROOT_ID,
      some { id := some ROOT_ID, children := some [], data := none,
             hasChildren := some true, isExpanded := some false })] }

/-- Second clean: `hasChildren` is recomputed to `false`. -/
def cleanGhostTwice : PTree :=
  { rootId := some ROOT_ID,
    items := some [(ROOT_ID,
      some { id := some ROOT_ID, children := some [], data := none,
             hasChildren := some false, isExpanded := some false })] }

/-- Claim C9, counterexample: `cleanTreeModel` is not idempotent — on a
tree whose root lists a dangling child, the first pass drops the child
but keeps `hasChildren = true` (computed from the unfiltered list), and
the second pass recomputes `hasChildren = false`, so
`cleanTreeModel(cleanTreeModel(T)) ≠ cleanTreeModel(T)`. -/
theorem C9_cleanTreeModel_counterexample :
    cleanTreeModelF cleanGhostTree = Except.ok cleanGhostOnce ∧
    cleanTreeModelF cleanGhostOnce = Except.ok cleanGhostTwice ∧
    cleanGhostTwice ≠ cleanGhostOnce := by decide

/-- Claim C9, amended: `cleanTreeModel` is not idempotent in general
(`cleanItemModel` computes `hasChildren` before the dangling-child
filter runs), but a second application reaches a fixed point: whenever
`cleanTreeModel(T)` and `cleanTreeModel(cleanTreeModel(T))` both
succeed, the latter's output is a fixed point of `cleanTreeModel`. -/
theorem C9_cleanTreeModel_amended (m T1 T2 : PTree)
    (h1 : cleanTreeModelF m = Except.ok T1)
    (h2 : cleanTreeModelF T1 = Except.ok T2) :
    cleanTreeModelF T2 = Except.ok T2 := by
  obtain ⟨items2, r, hT1, hgood, hroot⟩ := good_of_clean m T1 h1
  subst hT1
  rw [clean_of_good items2 r hgood hroot] at h2
  have hT2 : T2 =
      ({ rootId := some r,
         items := some (items2.map (fun kv => (kv.1, kv.2.map fixHC))) } : PTree) := by
    cases h2; rfl
  subst hT2
  obtain ⟨hgood2, hcons2⟩ := good_of_mapped items2 hgood
  have hroot2 : truthyEntry (items2.map (fun kv => (kv.1, kv.2.map fixHC)))
      ROOT_ID = true := by
    rw [truthyEntry_map]; exact hroot
  exact clean_fixpoint _ r hgood2 hroot2 hcons2

/-- Claim C9, witness: the amended theorem applied to the ghost-child
tree — the second pass's output is a fixed point. -/
theorem C9_cleanTreeModel_witness :
    cleanTreeModelF cleanGhostTwice = Except.ok cleanGhostTwice :=
  C9_cleanTreeModel_amended cleanGhostTree cleanGhostOnce cleanGhostTwice
    (by decide) (by decide)

/-! ### Claim C10 -/

/-- An entry whose item lacks an id makes the whole pass throw. -/
theorem cleanItemsPass_error_of_bad (raw : PItems) :
    ∀ (l : PItems) (k : String) (it : PItem), (k, some it) ∈ l → it.id = none →
      cleanItemsPass raw l = Except.error () := by
  intro l
  induction l with
  | nil => intro k it h _; cases h
  | cons kv rest ih =>
    intro k it hmem hid
    rcases List.mem_cons.mp hmem with heq | hmem'
    · rw [← heq]
      simp [cleanItemsPass, cleanOneItem, cleanItemModelF, jsFalsyId, hid,
        exceptErrBind]
    · obtain ⟨k', v⟩ := kv
      cases v with
      | none => simpa [cleanItemsPass] using ih k it hmem' hid
      | some item =>
        simp only [cleanItemsPass]
        cases hone : cleanOneItem raw item with
        | error e => rfl
        | ok c =>
          rw [ih k it hmem' hid]
          rfl

/-- Claim C10, confirmed: the clean pass is not total over untrusted
input — a non-null entry whose item has no id field makes
`cleanItemModel` throw, and therefore `cleanTreeModel` on a tree
containing such an entry throws as well, instead of repairing or
dropping the item. -/
theorem C10_cleanThrows (it : PItem) (m : PTree) (raw : PItems) (k : String)
    (hitems : m.items = some raw) (hmem : (k, some it) ∈ raw)
    (hid : it.id = none) :
    cleanItemModelF it = Except.error () ∧
    cleanTreeModelF m = Except.error () := by
  constructor
  · simp [cleanItemModelF, jsFalsyId, hid]
  · unfold cleanTreeModelF
    rw [hitems]
    simp only [Option.getD_some]
    rw [cleanItemsPass_error_of_bad raw raw k it hmem hid]
    rfl

/-- Claim C10, witness: a tree with the single entry `"x" ↦ \x7b\x7d`
(an item with no id): both the item clean and the tree clean throw. -/
theorem C10_cleanThrows_witness :
    cleanItemModelF {} = Except.error () ∧
    cleanTreeModelF { rootId := some ROOT_ID, items := some [("x", some {})] } =
      Except.error () :=
  C10_cleanThrows {} { rootId := some ROOT_ID, items := some [("x", some {})] }
    [("x", some {})] "x" rfl (by decide) rfl

/-! ## The object store (`StorePostgreSQL`, editor.ts bundle)

The PostgreSQL store keeps, per path: a content row (`objects`), a set of
metadata rows (`object_metadata`) and a header row carrying the content
type (`object_headers`).  The embedding is value-level: one record per
path.  Note that `getObjectMeta` reads only the metadata rows — it
returns `undefined` when there are none, and it never returns the
content type, which lives in the header row. -/

structure StoredObject where
  content : String
  meta : List (String × String) := []
  contentType : Option String := none
  deriving Repr, DecidableEq

structure Store where
  objects : List (String × StoredObject)
  deriving Repr, DecidableEq

def hasObject (s : Store) (path : String) : Bool :=
  (jsGet s.objects path).isSome

def getObject (s : Store) (path : String) : Option String :=
  (jsGet s.objects path).map (fun o => o.content)

/-- `getObjectMeta` returns `undefined` when the path has no metadata
rows (also when the object itself is absent). -/
def getObjectMeta (s : Store) (path : String) : Option (List (String × String)) :=
  match jsGet s.objects path with
  | none => none
  | some o => if o.meta.isEmpty then none else some o.meta

/-- `putObject(path, content, {meta, contentType})`: upsert the
content; replace the metadata rows only when `meta` is provided; upsert
the header only when `contentType` is provided. -/
def putObject (s : Store) (path content : String)
    (metaOpt : Option (List (String × String))) (ctOpt : Option String) : Store :=
  let old := jsGet s.objects path
  let newObj : StoredObject :=
    { content := content,
      meta := match metaOpt with
              | some m => m
              | none => (old.map (fun o => o.meta)).getD [],
      contentType := match ctOpt with
                     | some ct => some ct
                     | none => old.bind (fun o => o.contentType) }
  { objects := jsSet s.objects path newObj }

def deleteObject (s : Store) (path : String) : Store :=
  { objects := s.objects.filter (fun kv => ¬ (kv.1 = path)) }

/-- `copyObject(from, to, {meta, contentType})`: throws when the
source is absent; the target gets the source content, the provided
metadata when non-empty (else the source's), and the provided content
type when present (else the source's header). -/
def copyObject (s : Store) (fromPath toPath : String)
    (metaOpt : Option (List (String × String))) (ctOpt : Option String) :
    Except Unit Store :=
  match jsGet s.objects fromPath with
  | none => .error ()
  | some src =>
    let newMeta := match metaOpt with
                   | some m => if m.isEmpty then src.meta else m
                   | none => src.meta
    let newCT := match ctOpt with
                 | some ct => some ct
                 | none => src.contentType
    .ok { objects := jsSet s.objects toPath
            { content := src.content, meta := newMeta, contentType := newCT } }

/-! ### Merge / set lemmas -/

theorem jsGet_mergeMap {α : Type} (a b : List (String × α)) (k : String) :
    jsGet (a.map (fun kv => (kv.1, ((jsGet b kv.1).getD kv.2)))) k =
      (jsGet a k).map (fun v => (jsGet b k).getD v) := by
  induction a with
  | nil => rfl
  | cons kv rest ih =>
    by_cases hk : kv.1 = k
    · subst hk
      simp [jsGet]
    · simp [jsGet, hk, ih]

theorem jsGet_jsMerge {α : Type} (a b : List (String × α)) (k : String) :
    jsGet (jsMerge a b) k = ((jsGet b k).or (jsGet a k)) := by
  unfold jsMerge
  rw [jsGet_append, jsGet_mergeMap, jsGet_filter_key (jsMergeKeep a)]
  cases ha : jsGet a k with
  | none =>
    have : jsMergeKeep a k = true := by simp [jsMergeKeep, ha]
    rw [if_pos this]
    cases jsGet b k <;> simp [Option.or]
  | some v =>
    have : jsMergeKeep a k = false := by simp [jsMergeKeep, ha]
    rw [if_neg (by simp [this])]
    cases jsGet b k <;> simp [Option.or]

theorem jsGet_jsSet_self {α : Type} (l : List (String × α)) (key : String) (v : α) :
    jsGet (jsSet l key v) key = some v := by
  unfold jsSet
  by_cases h : (jsGet l key).isSome
  · rw [if_pos h]
    exact jsGet_jsSetExisting_self l key v h
  · rw [if_neg h, jsGet_append, Option.not_isSome_iff_eq_none.mp h]
    simp [jsGet, Option.or]

theorem jsGet_jsSet_other {α : Type} (l : List (String × α)) (key k : String) (v : α)
    (h : k ≠ key) : jsGet (jsSet l key v) k = jsGet l k := by
  unfold jsSet
  by_cases hs : (jsGet l key).isSome
  · rw [if_pos hs]
    exact jsGet_jsSetExisting_other l key k v h
  · rw [if_neg hs, jsGet_append]
    have : jsGet [(key, v)] k = none := by simp [jsGet, Ne.symm h]
    rw [this]
    cases jsGet l k <;> simp [Option.or]

/-! ## Server-side delete / restore engine

`cascadeSoftDeleteNotes` is `src/libs/server/note-actions.ts`;
`deleteNote` (permanent branch) and `restoreNote` are the trash endpoint
(`src/unnamed/part_002`).  The tree store (`libs/server/tree.ts`) is not
part of the provided sources; per the spec's Tree Store contract its
`get` returns the persisted tree and its `removeItem` / `restoreItem` /
`deleteItem` persist the corresponding Tree Mutation Algebra operation,
so the embedding passes the persisted `TreeModel` value explicitly and
applies the algebra operations to it. -/

/-- Modelled from the spec: `getPathNoteById` (libs/server/note-path, not
in the provided sources) maps a note id to the storage path of its
backing object; the spec says notes are content+metadata objects
addressed by id, each keyed by path, so the embedding uses an injective
id-to-path map. -/
def getPathNoteById (id : String) : String := "notes/" ++ id

/-- Modelled from the spec: the `NOTE_DELETED` deletion-state enum
(libs/shared/meta, not in the provided sources) has the two states
NORMAL and DELETED, serialised into the metadata value as two distinct
strings (`String(value)` of the numeric enum). -/
def NOTE_DELETED_NORMAL : String := "0"

/-- Modelled from the spec: the DELETED state's serialisation, distinct
from NORMAL's. -/
def NOTE_DELETED_DELETED : String := "1"

/-- Modelled from the spec: `metaToJson` (libs/server/meta, not in the
provided sources) converts the stored metadata map to its JSON form
field by field; the spec treats note metadata as a flat key-value
record, so the embedding takes the conversion to be the identity on the
association list. -/
def metaToJson (m : List (String × String)) : List (String × String) := m

/-- Modelled from the spec: `jsonToMeta` (libs/server/meta, not in the
provided sources) converts the JSON metadata fields that are present
back to stored metadata entries, field by field; the embedding takes it
to be the identity on the provided entries (absent fields produce no
entry, which is what makes the merge in `restoreNote` meaningful). -/
def jsonToMeta (j : List (String × String)) : List (String × String) := j

/-- JavaScript `a || b` on an optional string: the empty string is falsy
and falls through to `b`. -/
def jsOrString (a : Option String) (b : String) : String :=
  match a with
  | some str => if str = "" then b else str
  | none => b

/-- The per-item body of `cascadeSoftDeleteNotes`'s loop
(note-actions.ts lines 43-71): skip falsy items, skip items with no
backing object (warning), otherwise rewrite the object in place with
tombstone metadata, the existing content and a content type read from
the metadata map (falling back to text/markdown). -/
def cascadeStep (now : String) (s : Store) (item : TreeItemModel) : Store :=
  if item.id = "" then s
  else
    let currentItemPath := getPathNoteById item.id
    if hasObject s currentItemPath then
      let itemMetaS3 := getObjectMeta s currentItemPath
      let itemMetaJson := metaToJson (itemMetaS3.getD [])
      let itemMetaJson := jsSet itemMetaJson "deleted" NOTE_DELETED_DELETED
      let itemMetaJson := jsSet itemMetaJson "deletedAt" now
      let itemMetaJson := jsSet itemMetaJson "date" now
      let newItemMetaS3 := jsMerge (itemMetaS3.getD []) (jsonToMeta itemMetaJson)
      let ct := jsOrString (jsGet (itemMetaS3.getD []) "ContentType")
        (jsOrString (jsGet (itemMetaS3.getD []) "contentType") "text/markdown")
      let existingContent := (getObject s currentItemPath).getD ""
      putObject s currentItemPath existingContent (some newItemMetaS3) (some ct)
    else s

inductive StoreRes where
  | ok (s : Store)
  | typeError
  | outOfFuel
  deriving Repr, DecidableEq

/-- `cascadeSoftDeleteNotes(store, treeStore, noteId)`
(note-actions.ts lines 19-72): no-op when the id is absent from the
tree; otherwise the loop runs over `[mainItem, ...flattenTree(tree,
noteId)]`; a `flattenTree` throw propagates. -/
def cascadeSoftDeleteNotes (s : Store) (tree : TreeModel) (fuel : Nat)
    (noteId now : String) : StoreRes :=
  match jsGet tree.items noteId with
  | none => .ok s
  | some mainItem =>
    match flattenTreeF fuel tree.items noteId with
    | .ok descendantItems =>
      .ok ((mainItem :: descendantItems).foldl (cascadeStep now) s)
    | .typeError => .typeError
    | .outOfFuel => .outOfFuel

inductive StoreTreeRes where
  | ok (s : Store) (t : TreeModel)
  | typeError
  | outOfFuel
  deriving Repr, DecidableEq

/-- The `permanent` branch of `deleteNote` (part_002 lines 59-70): the
descendants of `id` — and only they, not `id` itself — have their
backing objects deleted when present, then the tree store persists
`deleteItem(id)`. -/
def deleteNotePermanent (fuel : Nat) (s : Store) (tree : TreeModel)
    (id : String) : StoreTreeRes :=
  match flattenTreeF fuel tree.items id with
  | .ok descendants =>
    let s' := descendants.foldl (fun acc item =>
      let currentNotePath := getPathNoteById item.id
      if hasObject acc currentNotePath then deleteObject acc currentNotePath
      else acc) s
    match deleteItemF fuel tree id with
    | .ok t' => .ok s' t'
    | .typeError => .typeError
    | .outOfFuel => .outOfFuel
  | .typeError => .typeError
  | .outOfFuel => .outOfFuel

/-- `restoreNote` (part_002 lines 79-95): merge `{date: now, deleted:
NORMAL}` over the existing metadata, rewrite the object in place via
`copyObject` with content type text/markdown, then persist
`restoreItem(id, parentId)`.  A missing object (copy source) or an
invalid parent propagates as an error. -/
def restoreNoteF (s : Store) (tree : TreeModel) (id parentId now : String) :
    Except Unit (Store × TreeModel) :=
  let notePath := getPathNoteById id
  let oldMeta := getObjectMeta s notePath
  let meta0 := jsonToMeta [("date", now), ("deleted", NOTE_DELETED_NORMAL)]
  let meta := match oldMeta with
              | some om => jsMerge om meta0
              | none => meta0
  match copyObject s notePath notePath (some meta) (some "text/markdown") with
  | .error _ => .error ()
  | .ok s' =>
    match restoreItemJS tree id parentId with
    | .error _ => .error ()
    | .ok t' => .ok (s', t')

/-! ### Claim C2 -/

/-- Tree `root → A → {B, C}` for the hard-delete scenario. -/
def hardTree : TreeModel :=
  { rootId := ROOT_ID,
    items := [(ROOT_ID, { id := ROOT_ID, children := ["A"] }),
              ("A", { id := "A", children := ["B", "C"] }),
              ("B", { id := "B", children := [] }),
              ("C", { id := "C", children := [] })] }

/-- Backing objects for A, B and C. -/
def hardStore : Store :=
  { objects := [("notes/A", { content := "a" }),
                ("notes/B", { content := "b" }),
                ("notes/C", { content := "c" })] }

/-- Store after the hard delete: A's object survives. -/
def hardStoreAfter : Store :=
  { objects := [("notes/A", { content := "a" })] }

/-- Tree after the hard delete: A, B and C are gone. -/
def hardTreeAfter : TreeModel :=
  { rootId := ROOT_ID, items := [(ROOT_ID, { id := ROOT_ID, children := [] })] }

/-- Claim C2, failing input: hard-deleting note `A`, which has the two
descendants `B` and `C`, deletes the backing objects of `B` and `C` and
removes `{A, B, C}` from the tree — but it never deletes `A`'s own
backing object, because the deletion loop runs over
`flattenTree(tree, id)`, which excludes `id` itself: `hasObject` for the
target still returns `true` afterwards, contradicting the claim (and the
spec's 3-object scenario, and part_001's own comment that the list
"includes the note id itself"). -/
theorem C2_hardDelete_code_bug :
    deleteNotePermanent 10 hardStore hardTree "A" =
      StoreTreeRes.ok hardStoreAfter hardTreeAfter ∧
    hasObject hardStoreAfter (getPathNoteById "A") = true ∧
    hasObject hardStoreAfter (getPathNoteById "B") = false ∧
    hasObject hardStoreAfter (getPathNoteById "C") = false ∧
    jsGet hardTreeAfter.items "A" = none ∧
    jsGet hardTreeAfter.items "B" = none ∧
    jsGet hardTreeAfter.items "C" = none ∧
    (jsGet hardTreeAfter.items ROOT_ID).isSome = true := by decide

/-! ### Claim C3 -/

/-- Tree `root → A` for the cascade scenario. -/
def cascadeTree : TreeModel :=
  { rootId := ROOT_ID,
    items := [(ROOT_ID, { id := ROOT_ID, children := ["A"] }),
              ("A", { id := "A", children := [] })] }

/-- A's backing object: content `"hello"`, one unrelated metadata entry,
content type `text/plain`. -/
def cascadeStore : Store :=
  { objects := [("notes/A",
      { content := "hello", meta := [("title", "T")],
        contentType := some "text/plain" })] }

/-- A's object after the cascade: tombstoned, content and unrelated
metadata preserved — but the content type has become `text/markdown`. -/
def cascadeStoreAfter : Store :=
  { objects := [("notes/A",
      { content := "hello",
        meta := [("title", "T"), ("deleted", NOTE_DELETED_DELETED),
                 ("deletedAt", "NOW"), ("date", "NOW")],
        contentType := some "text/markdown" })] }

/-- Claim C3, failing input: cascading soft delete of `A` whose object
has content type `text/plain`.  The cascade sets
deletionState=DELETED, deletedAt=now, date=now, preserves the content
and the unrelated `title` entry — but it rewrites the content type to
`text/markdown`, because it reads the content type from the metadata map
(`itemMetaS3?.ContentType || itemMetaS3?.contentType`) while
`getObjectMeta` returns only the metadata rows, never the header's
content type.  This contradicts the claim (and the code's own
`Preserve content type` comment). -/
theorem C3_cascade_code_bug :
    cascadeSoftDeleteNotes cascadeStore cascadeTree 10 "A" "NOW" =
      StoreRes.ok cascadeStoreAfter ∧
    getObject cascadeStoreAfter (getPathNoteById "A") = some "hello" ∧
    (getObjectMeta cascadeStoreAfter (getPathNoteById "A")).bind
      (fun m => jsGet m "deleted") = some NOTE_DELETED_DELETED ∧
    (getObjectMeta cascadeStoreAfter (getPathNoteById "A")).bind
      (fun m => jsGet m "deletedAt") = some "NOW" ∧
    (getObjectMeta cascadeStoreAfter (getPathNoteById "A")).bind
      (fun m => jsGet m "date") = some "NOW" ∧
    (getObjectMeta cascadeStoreAfter (getPathNoteById "A")).bind
      (fun m => jsGet m "title") = some "T" ∧
    (jsGet cascadeStore.objects (getPathNoteById "A")).bind
      (fun o => o.contentType) = some "text/plain" ∧
    (jsGet cascadeStoreAfter.objects (getPathNoteById "A")).bind
      (fun o => o.contentType) = some "text/markdown" := by decide

/-! ### Claim C4 -/

/-- A soft-deleted note object: tombstoned with a `deletedAt` stamp. -/
def restoreCexStore : Store :=
  { objects := [("notes/A",
      { content := "hello",
        meta := [("title", "T"), ("deleted", NOTE_DELETED_DELETED),
                 ("deletedAt", "T0")],
        contentType := some "text/markdown" })] }

/-- The store after restoring `A`: `deleted` and `date` are rewritten,
`deletedAt` still reads `"T0"`. -/
def restoreCexStoreAfter : Store :=
  { objects := [("notes/A",
      { content := "hello",
        meta := [("title", "T"), ("deleted", NOTE_DELETED_NORMAL),
                 ("deletedAt", "T0"), ("date", "NOW")],
        contentType := some "text/markdown" })] }

/-- The tree after restoring `A` under the default root. -/
def restoreCexTreeAfter : TreeModel :=
  { rootId := ROOT_ID,
    items := [(ROOT_ID, { id := ROOT_ID, children := ["A"] }),
              ("A", { id := "A", children := [] })] }

/-- Claim C4, counterexample: restoring a soft-deleted note merges only
`{date: now, deleted: NORMAL}` over the existing metadata, so the
`deletedAt` entry survives the merge with its old value instead of being
cleared, contradicting the claim that restore clears `deletedAt`. -/
theorem C4_restore_counterexample :
    restoreNoteF restoreCexStore DEFAULT_TREE "A" ROOT_ID "NOW" =
      Except.ok (restoreCexStoreAfter, restoreCexTreeAfter) ∧
    (getObjectMeta restoreCexStoreAfter (getPathNoteById "A")).bind
      (fun m => jsGet m "deletedAt") = some "T0" := by decide

/-- Keys survive the `removeItem` detach step unchanged. -/
theorem jsGet_removeChildrenFirst_isSome (id : String) (l : TreeItems) (k : String) :
    (jsGet (removeChildrenFirst id l) k).isSome = (jsGet l k).isSome := by
  induction l with
  | nil => rfl
  | cons kv rest ih =>
    obtain ⟨k', it⟩ := kv
    rw [removeChildrenFirst]
    by_cases hc : id ∈ it.children
    · rw [if_pos hc]
      by_cases hk : k' = k <;> simp [jsGet, hk]
    · rw [if_neg hc]
      by_cases hk : k' = k <;> simp [jsGet, hk, ih]

/-- Claim C4, amended: restoring a note whose backing object exists,
under a parent present in the tree, rewrites the target object's
metadata as `{date: now, deleted: NORMAL}` merged over the
existing metadata — deletionState becomes NORMAL and the modification
time becomes now, but `deletedAt` (like every other key besides
`deleted` and `date`) keeps its previous value and is not cleared — sets
the content type to text/markdown with the content unchanged, leaves
every other object (in particular every descendant's tombstone)
untouched, and reattaches the id under the given parentId via
`restoreItem`. -/
theorem C4_restore_amended (s : Store) (tree : TreeModel)
    (id parentId now : String) (obj : StoredObject)
    (hobj : jsGet s.objects (getPathNoteById id) = some obj)
    (hparent : (jsGet tree.items parentId).isSome) :
    ∃ s' t', restoreNoteF s tree id parentId now = Except.ok (s', t') ∧
      (∃ obj', jsGet s'.objects (getPathNoteById id) = some obj' ∧
        obj'.content = obj.content ∧
        obj'.contentType = some "text/markdown" ∧
        jsGet obj'.meta "deleted" = some NOTE_DELETED_NORMAL ∧
        jsGet obj'.meta "date" = some now ∧
        (∀ k, k ≠ "deleted" → k ≠ "date" → jsGet obj'.meta k = jsGet obj.meta k)) ∧
      (∀ q, q ≠ getPathNoteById id → jsGet s'.objects q = jsGet s.objects q) ∧
      (∃ pItem cs, jsGet t'.items parentId = some pItem ∧
        pItem.children = cs ++ [id]) := by
  unfold restoreNoteF
  simp only [getObjectMeta, hobj]
  have hmeta0 : ∀ k, k ≠ "deleted" → k ≠ "date" →
      jsGet (jsonToMeta [("date", now), ("deleted", NOTE_DELETED_NORMAL)]) k = none := by
    intro k h1 h2
    simp [jsonToMeta, jsGet, Ne.symm h1, Ne.symm h2]
  -- the merged metadata and its lookups, in both branches of the
  -- `oldMeta` check
  have main : ∀ (meta : List (String × String)),
      jsGet meta "deleted" = some NOTE_DELETED_NORMAL →
      jsGet meta "date" = some now →
      (∀ k, k ≠ "deleted" → k ≠ "date" → jsGet meta k = jsGet obj.meta k) →
      meta.isEmpty = false →
      ∃ s' t',
        (match copyObject s (getPathNoteById id) (getPathNoteById id)
            (some meta) (some "text/markdown") with
         | .error _ => (.error () : Except Unit (Store × TreeModel))
         | .ok s' =>
           match restoreItemJS tree id parentId with
           | .error _ => .error ()
           | .ok t' => .ok (s', t')) = Except.ok (s', t') ∧
        (∃ obj', jsGet s'.objects (getPathNoteById id) = some obj' ∧
          obj'.content = obj.content ∧
          obj'.contentType = some "text/markdown" ∧
          jsGet obj'.meta "deleted" = some NOTE_DELETED_NORMAL ∧
          jsGet obj'.meta "date" = some now ∧
          (∀ k, k ≠ "deleted" → k ≠ "date" → jsGet obj'.meta k = jsGet obj.meta k)) ∧
        (∀ q, q ≠ getPathNoteById id → jsGet s'.objects q = jsGet s.objects q) ∧
        (∃ pItem cs, jsGet t'.items parentId = some pItem ∧
          pItem.children = cs ++ [id]) := by
    intro meta hdel hdate hkeep hne
    -- the copy succeeds and rewrites the object in place
    simp only [copyObject, hobj, hne, Bool.false_eq_true, if_false]
    -- restoreItem succeeds: the parent is still present after the
    -- detach and the create-if-absent step
    have hparent1 : (jsGet (if (jsGet (removeItemF tree id).items id).isSome
        then (removeItemF tree id).items
        else (removeItemF tree id).items ++ [(id, { id := id, children := [] })])
        parentId).isSome := by
      by_cases hid : (jsGet (removeItemF tree id).items id).isSome
      · rw [if_pos hid]
        simpa [removeItemF, jsGet_removeChildrenFirst_isSome] using hparent
      · rw [if_neg hid, jsGet_append]
        have h1 : (jsGet (removeItemF tree id).items parentId).isSome := by
          simpa [removeItemF, jsGet_removeChildrenFirst_isSome] using hparent
        obtain ⟨p1, hp1⟩ := Option.isSome_iff_exists.mp h1
        rw [hp1]
        rfl
    obtain ⟨parent1, hp1⟩ := Option.isSome_iff_exists.mp hparent1
    have hrest : restoreItemJS tree id parentId =
        Except.ok
          ({ rootId := (removeItemF tree id).rootId,
             items := jsSetExisting
               (if (jsGet (removeItemF tree id).items id).isSome
                then (removeItemF tree id).items
                else (removeItemF tree id).items ++ [(id, { id := id, children := [] })])
               parentId
               ({ parent1 with children := parent1.children ++ [id] }) } : TreeModel) := by
      simp only [restoreItemJS, addItemJS]
      rw [hp1]
    rw [hrest]
    refine ⟨_, _, rfl, ?_, ?_, ?_⟩
    · exact ⟨_, jsGet_jsSet_self _ _ _, rfl, rfl, hdel, hdate, hkeep⟩
    · intro q hq
      exact jsGet_jsSet_other _ _ _ _ hq
    · exact ⟨_, _, jsGet_jsSetExisting_self _ _ _ (by rw [hp1]; rfl), rfl⟩
  by_cases hm : obj.meta.isEmpty
  · rw [if_pos hm]
    exact main _ (by simp [jsonToMeta, jsGet]) (by simp [jsonToMeta, jsGet])
      (fun k h1 h2 => by
        rw [hmeta0 k h1 h2]
        rw [List.isEmpty_iff.mp hm]
        rfl)
      (by simp [jsonToMeta])
  · rw [if_neg hm]
    refine main _ ?_ ?_ ?_ ?_
    · rw [jsGet_jsMerge]
      simp [jsonToMeta, jsGet]
    · rw [jsGet_jsMerge]
      simp [jsonToMeta, jsGet]
    · intro k h1 h2
      rw [jsGet_jsMerge, hmeta0 k h1 h2]
      cases jsGet obj.meta k <;> simp [Option.or]
    · unfold jsMerge
      cases hl : obj.meta with
      | nil => rw [hl] at hm; simp at hm
      | cons kv rest => simp

/-- Claim C4, witness: the amended theorem at the concrete soft-deleted
note store — restore succeeds, tombstone cleared, `deletedAt`
untouched, `A` reattached under the root. -/
theorem C4_restore_witness :
    ∃ s' t', restoreNoteF restoreCexStore DEFAULT_TREE "A" ROOT_ID "NOW" =
        Except.ok (s', t') ∧
      (∃ obj', jsGet s'.objects (getPathNoteById "A") = some obj' ∧
        obj'.content = "hello" ∧
        obj'.contentType = some "text/markdown" ∧
        jsGet obj'.meta "deleted" = some NOTE_DELETED_NORMAL ∧
        jsGet obj'.meta "date" = some "NOW" ∧
        (∀ k, k ≠ "deleted" → k ≠ "date" → jsGet obj'.meta k =
          jsGet [("title", "T"), ("deleted", NOTE_DELETED_DELETED),
                 ("deletedAt", "T0")] k)) ∧
      (∀ q, q ≠ getPathNoteById "A" →
        jsGet s'.objects q = jsGet restoreCexStore.objects q) ∧
      (∃ pItem cs, jsGet t'.items ROOT_ID = some pItem ∧
        pItem.children = cs ++ ["A"]) :=
  C4_restore_amended restoreCexStore DEFAULT_TREE "A" ROOT_ID "NOW"
    { content := "hello",
      meta := [("title", "T"), ("deleted", NOTE_DELETED_DELETED),
               ("deletedAt", "T0")],
      contentType := some "text/markdown" } (by decide) (by decide)

/-! ## Client reconciliation: manual save (editor.ts lines 246-369,
`updateNote` part_003 lines 262-377)

The embedding models the state the save path reads and writes: the
in-memory note (`NoteState.note`), the note cache, the persisted draft
for the current note id (`draft_content_<id>` / `draft_title_<id>` in
IndexedDB), the `hasLocalChanges` flag, the local editor buffers, and
the stream of surfaced toast notifications (by level).  The tree-summary
update (`mutateItem` on the cached tree) and the editor re-render key
are outside the modelled state.  Only the existing-note branch of
`saveNote` is modelled (`isNew` is a different code path through
`createNote`).  The server round trip is a parameter: `throwErr` is a
rejected request (network error), `respNone` a fulfilled request
without data, `resp n` the server-echoed note. -/

structure CNote where
  id : String
  title : Option String := none
  content : Option String := none
  date : Option String := none
  deriving Repr, DecidableEq

inductive ToastLevel where
  | info
  | error
  | success
  deriving Repr, DecidableEq

structure ClientState where
  note : Option CNote
  noteCache : List (String × CNote)
  draftContent : Option String
  draftTitle : Option String
  hasLocalChanges : Bool
  localContent : String
  localTitle : String
  toasts : List ToastLevel
  deriving Repr, DecidableEq

inductive ApiOutcome where
  | throwErr
  | respNone
  | resp (n : CNote)
  deriving Repr, DecidableEq

/-- Modelled from the spec: the note cache's `mutateItem(id, payload)`
(libs/web/cache/note, not in the provided sources) merges the payload
over the cached entry — or stores the payload alone when the id is not
cached — preserving cached fields the payload does not carry. -/
def cacheMerge (old : Option CNote) (r : CNote) : CNote :=
  match old with
  | some o => { id := r.id, title := r.title.or o.title,
                content := r.content.or o.content, date := r.date.or o.date }
  | none => r

/-- `updateNote(data)` for `data = {content, title, date}` (what the
manual save sends).  Validation iterates the keys of `data`: `content`
mismatches only log a warning, `date` is skipped, `title` mismatches
revert the optimistic note state and fail.  On a throw, the inner catch
reverts and re-throws, and the outer catch re-reads the cache; the
function itself never re-throws. -/
def updateNoteF (st : ClientState) (_content title date : String)
    (api : ApiOutcome) : ClientState × Option CNote :=
  match st.note with
  | none => ({ st with toasts := st.toasts ++ [ToastLevel.error] }, none)
  | some note0 =>
    let originalNote := note0
    -- newNote = {...note, ...updatedData}; delete newNote.content
    let newNote : CNote :=
      { note0 with title := some title, date := some date, content := none }
    let st1 := { st with note := some newNote }
    match api with
    | .throwErr =>
      -- inner catch: setNote(originalNote), error toast, rethrow;
      -- outer catch: error toast, re-read the cache
      let stInner := { st1 with note := some originalNote,
                                toasts := st1.toasts ++ [ToastLevel.error] }
      let revertNote : Option CNote :=
        match jsGet st.noteCache note0.id with
        | some cached => some cached
        | none => some originalNote
      ({ stInner with note := revertNote,
                      toasts := stInner.toasts ++ [ToastLevel.error] }, none)
    | .respNone =>
      -- !apiResult: revert, error toast, throw; then the inner and
      -- outer catches run as above
      let stA := { st1 with note := some originalNote,
                            toasts := st1.toasts ++ [ToastLevel.error] }
      let stB := { stA with note := some originalNote,
                            toasts := stA.toasts ++ [ToastLevel.error] }
      let revertNote : Option CNote :=
        match jsGet st.noteCache note0.id with
        | some cached => some cached
        | none => some originalNote
      ({ stB with note := revertNote,
                  toasts := stB.toasts ++ [ToastLevel.error] }, none)
    | .resp r =>
      if r.title ≠ some title then
        ({ st1 with note := some originalNote,
                    toasts := st1.toasts ++ [ToastLevel.error] }, none)
      else
        -- commit: tree mutateItem (not modelled), cache mutateItem,
        -- setNote(server echo), success toast
        let cache2 := jsSet st.noteCache note0.id
          (cacheMerge (jsGet st.noteCache note0.id) r)
        ({ st1 with noteCache := cache2, note := some r,
                    toasts := st1.toasts ++ [ToastLevel.success] }, some r)

/-- Manual save of an existing note (editor.ts lines 246-369): sends the
local buffers via `updateNote`, then validates the echoed content and
title against them; only a fully validated save clears the flag and the
persisted drafts. -/
def saveNoteF (st : ClientState) (now : String) (api : ApiOutcome) :
    ClientState × Bool :=
  match st.note with
  | none => (st, false)
  | some _ =>
    let st0 := { st with toasts := st.toasts ++ [ToastLevel.info] }
    let res := updateNoteF st0 st.localContent st.localTitle now api
    match res.2 with
    | none => (res.1, false)
    | some r =>
      if r.content ≠ some st.localContent then
        ({ res.1 with toasts := res.1.toasts ++ [ToastLevel.error] }, false)
      else if r.title ≠ some st.localTitle then
        ({ res.1 with toasts := res.1.toasts ++ [ToastLevel.error] }, false)
      else
        ({ res.1 with hasLocalChanges := false, draftContent := none,
                      draftTitle := none,
                      toasts := res.1.toasts ++ [ToastLevel.success] }, true)

/-! ### Claim C5 -/

/-- The pre-save note for the counterexample. -/
def saveCexNote : CNote :=
  { id := "n1", title := some "t", content := some "c", date := some "d0" }

/-- Pre-save client state: dirty, with a persisted draft `"c2"`. -/
def saveCexState : ClientState :=
  { note := some saveCexNote, noteCache := [("n1", saveCexNote)],
    draftContent := some "c2", draftTitle := some "t",
    hasLocalChanges := true, localContent := "c2", localTitle := "t",
    toasts := [] }

/-- A server echo whose title matches but whose content differs from
what was sent. -/
def saveCexEcho : CNote :=
  { id := "n1", title := some "t", content := some "SRV", date := some "NOW" }

/-- Claim C5, counterexample: on a manual save whose server echo has
matching title but different content, the save is reported failed and
the draft is preserved — but the in-memory note state and the note cache
are NOT reverted to the pre-save snapshot: `updateNote` treats a content
mismatch as a warning, commits the server echo to the note state and the
cache and toasts success, before `saveNote`'s own content check fails
the save.  This contradicts the claim that a mismatch reverts the
in-memory state to the pre-save snapshot. -/
theorem C5_save_counterexample :
    (saveNoteF saveCexState "NOW" (ApiOutcome.resp saveCexEcho)).2 = false ∧
    (saveNoteF saveCexState "NOW" (ApiOutcome.resp saveCexEcho)).1.note =
      some saveCexEcho ∧
    some saveCexEcho ≠ saveCexState.note ∧
    jsGet (saveNoteF saveCexState "NOW" (ApiOutcome.resp saveCexEcho)).1.noteCache
      "n1" = some saveCexEcho ∧
    (saveNoteF saveCexState "NOW" (ApiOutcome.resp saveCexEcho)).1.draftContent =
      some "c2" := by decide

/-- Claim C5, amended: on a manual save of an existing note the client
validates the echoed content and title against what was sent, and every
mismatch or network error is reported as a failed save with the
persisted draft preserved, the dirty flag kept, and an error surfaced;
but only a network error or a title mismatch reverts the note state to
the pre-save snapshot (network errors re-read the cached copy when one
exists) — on a content-only mismatch the note state and the note cache
are updated with the server echo instead of being reverted.  On a fully
validated save the persisted drafts are cleared and the dirty flag is
reset. -/
theorem C5_save_amended (st : ClientState) (note0 : CNote) (now : String)
    (h : st.note = some note0) :
    (∀ api, api = ApiOutcome.throwErr ∨ api = ApiOutcome.respNone →
       (saveNoteF st now api).2 = false ∧
       (saveNoteF st now api).1.draftContent = st.draftContent ∧
       (saveNoteF st now api).1.draftTitle = st.draftTitle ∧
       (saveNoteF st now api).1.hasLocalChanges = st.hasLocalChanges ∧
       (saveNoteF st now api).1.noteCache = st.noteCache ∧
       (saveNoteF st now api).1.note =
         some ((jsGet st.noteCache note0.id).getD note0) ∧
       ToastLevel.error ∈ (saveNoteF st now api).1.toasts) ∧
    (∀ r : CNote, r.title ≠ some st.localTitle →
       (saveNoteF st now (ApiOutcome.resp r)).2 = false ∧
       (saveNoteF st now (ApiOutcome.resp r)).1.note = some note0 ∧
       (saveNoteF st now (ApiOutcome.resp r)).1.draftContent = st.draftContent ∧
       (saveNoteF st now (ApiOutcome.resp r)).1.draftTitle = st.draftTitle ∧
       (saveNoteF st now (ApiOutcome.resp r)).1.hasLocalChanges = st.hasLocalChanges ∧
       (saveNoteF st now (ApiOutcome.resp r)).1.noteCache = st.noteCache ∧
       ToastLevel.error ∈ (saveNoteF st now (ApiOutcome.resp r)).1.toasts) ∧
    (∀ r : CNote, r.title = some st.localTitle →
       r.content ≠ some st.localContent →
       (saveNoteF st now (ApiOutcome.resp r)).2 = false ∧
       (saveNoteF st now (ApiOutcome.resp r)).1.note = some r ∧
       jsGet (saveNoteF st now (ApiOutcome.resp r)).1.noteCache note0.id =
         some (cacheMerge (jsGet st.noteCache note0.id) r) ∧
       (saveNoteF st now (ApiOutcome.resp r)).1.draftContent = st.draftContent ∧
       (saveNoteF st now (ApiOutcome.resp r)).1.draftTitle = st.draftTitle ∧
       (saveNoteF st now (ApiOutcome.resp r)).1.hasLocalChanges = st.hasLocalChanges ∧
       ToastLevel.error ∈ (saveNoteF st now (ApiOutcome.resp r)).1.toasts) ∧
    (∀ r : CNote, r.title = some st.localTitle →
       r.content = some st.localContent →
       (saveNoteF st now (ApiOutcome.resp r)).2 = true ∧
       (saveNoteF st now (ApiOutcome.resp r)).1.draftContent = none ∧
       (saveNoteF st now (ApiOutcome.resp r)).1.draftTitle = none ∧
       (saveNoteF st now (ApiOutcome.resp r)).1.hasLocalChanges = false) := by
  refine ⟨?_, ?_, ?_, ?_⟩
  · rintro api (rfl | rfl) <;>
      simp [saveNoteF, updateNoteF, h, Option.getD] <;>
      cases jsGet st.noteCache note0.id <;> simp
  · intro r hr
    simp only [saveNoteF, updateNoteF, h]
    rw [if_pos hr]
    simp
  · intro r ht hc
    simp only [saveNoteF, updateNoteF, h]
    rw [if_neg (by simp [ht])]
    simp only []
    rw [if_pos hc]
    simp [jsGet_jsSet_self]
  · intro r ht hc
    simp only [saveNoteF, updateNoteF, h]
    rw [if_neg (by simp [ht])]
    simp only []
    rw [if_neg (by simp [hc]), if_neg (by simp [ht])]
    simp

/-- Claim C5, witness: the amended theorem at the concrete dirty state —
a fully validated echo makes the save succeed and clears the drafts and
the dirty flag. -/
theorem C5_save_witness :
    (saveNoteF saveCexState "NOW"
      (ApiOutcome.resp { id := "n1", title := some "t", content := some "c2",
                         date := some "NOW" })).2 = true ∧
    (saveNoteF saveCexState "NOW"
      (ApiOutcome.resp { id := "n1", title := some "t", content := some "c2",
                         date := some "NOW" })).1.draftContent = none ∧
    (saveNoteF saveCexState "NOW"
      (ApiOutcome.resp { id := "n1", title := some "t", content := some "c2",
                         date := some "NOW" })).1.draftTitle = none ∧
    (saveNoteF saveCexState "NOW"
      (ApiOutcome.resp { id := "n1", title := some "t", content := some "c2",
                         date := some "NOW" })).1.hasLocalChanges = false :=
  (C5_save_amended saveCexState saveCexNote "NOW" rfl).2.2.2
    { id := "n1", title := some "t", content := some "c2", date := some "NOW" }
    (by decide) (by decide)

end Timo
